import Mathlib

/-!
Verification of the `bgrep` context-capture core (`src/bgrep.cpp`).

The development shallowly embeds the C++ classes as Lean data:

* `Target` (pattern set) — a list of byte-string patterns; `Target.matches`
  mirrors `Target::match`, which calls `memmem` on each registered pattern in
  order and stops at the first hit.
* `StreamReader` — models `StreamReader::read` over `std::istream`: returns
  `-1` once the eof flag is set, otherwise reads up to `n` bytes and sets the
  eof flag exactly when fewer than `n` bytes were available.
* `RingBuffer` — the circular slot buffer with its write cursor
  `next_buffer_idx`, the tracked match `matched_buffer_idx` (`-1` = none, as
  in the source, so the field is an integer), and the per-slot
  `buffer_print_flag` array (`1`/`true` = already printed or initial,
  `0`/`false` = freshly written, not yet printed), exactly as in the source.

Bytes are natural numbers; a slot's contents are a `List ℕ`.  Slot storage is
allocated by `new char[...]` in the constructor, so its initial contents are
indeterminate: `RingBuffer.init` takes the initial contents as a parameter.
-/

namespace Bgrep

/-- Contract of libc `memmem(hay, hayLen, needle, needleLen) != NULL`:
the needle occurs contiguously in the haystack (an empty needle always
"occurs": glibc returns the haystack pointer, which is non-null). -/
def memmemFound (hay needle : List ℕ) : Bool :=
  (List.range (hay.length + 1)).any fun i => decide (needle <+: hay.drop i)

/-- `Target::match(str, len)` from the source: scan the registered patterns in
registration order, `break` on the first `memmem` hit.  `str` is the probed
byte slice (the first `len` bytes of the slot). -/
def Target.matches (targets : List (List ℕ)) (str : List ℕ) : Bool :=
  targets.any fun t => memmemFound str t

/-- `StreamReader` over a `std::istringstream`: the remaining bytes plus the
stream's eof flag. -/
structure StreamReader where
  data : List ℕ
  eofFlag : Bool
deriving DecidableEq

/-- `StreamReader::read(buffer, n)`: return `-1` if the eof bit is already
set; otherwise `istream::read(buffer, n)` extracts as many of the `n`
requested bytes as are available (`gcount`), setting eof iff fewer than `n`
were extracted.  Returns (bytes-read, extracted bytes, new stream state). -/
def StreamReader.read (r : StreamReader) (n : ℕ) : ℤ × List ℕ × StreamReader :=
  if r.eofFlag then (-1, [], r)
  else
    let chunk := r.data.take n
    ((chunk.length : ℤ), chunk,
      { data := r.data.drop n, eofFlag := decide (chunk.length < n) })

/-- Writing `chunk` at the start of a slot that previously held `content`:
the slot keeps its stale tail beyond the bytes actually read. -/
def writeChunk (content chunk : List ℕ) : List ℕ :=
  chunk ++ content.drop chunk.length

/-- The `RingBuffer` state (`_buffer`, `_buffer_num`, `_buffer_size`,
`_next_buffer_idx`, `_matched_buffer_idx`, `_target`, `_buffer_print_flag`).
`buffer_print_flag` entries: `true` = `1` (printed / initial), `false` = `0`
(freshly written, not yet printed), matching the source's `char` flags. -/
structure RingBuffer where
  buffer : List (List ℕ)
  buffer_num : ℕ
  buffer_size : ℕ
  next_buffer_idx : ℕ
  matched_buffer_idx : ℤ
  target : List (List ℕ)
  buffer_print_flag : List Bool
deriving DecidableEq

/-- `RingBuffer::RingBuffer(buffer_num, buffer_size, target)`: cursor `0`,
no tracked match (`-1`), every print flag set to `1`.  `new char[...]` leaves
the slots' contents indeterminate, so they are a parameter `initial`. -/
def RingBuffer.init (buffer_num buffer_size : ℕ) (target : List (List ℕ))
    (initial : ℕ → List ℕ) : RingBuffer :=
  { buffer := (List.range buffer_num).map initial
    buffer_num := buffer_num
    buffer_size := buffer_size
    next_buffer_idx := 0
    matched_buffer_idx := -1
    target := target
    buffer_print_flag := List.replicate buffer_num true }

/-- One iteration of either loop in `RingBuffer::collectTo`: if slot `i`'s
print flag is `0`, send the slot's full contents to the collector (recorded
as the pair `(i, contents)`) and set the flag to `1`. -/
def collectStep (buf : List (List ℕ)) (acc : List Bool × List (ℕ × List ℕ))
    (i : ℕ) : List Bool × List (ℕ × List ℕ) :=
  if acc.1.getD i true = false then
    (acc.1.set i true, acc.2 ++ [(i, buf.getD i [])])
  else acc

/-- The slot order traversed by `RingBuffer::collectTo(start)`:
`start, start+1, …, N-1` (first loop) then `0, …, start-1` (second loop). -/
def wrapIdxs (start n : ℕ) : List ℕ :=
  List.range' start (n - start) ++ List.range start

/-- `RingBuffer::collectTo(start, collector)`: walk the slots in wrap-around
order from `start`, emitting every slot whose print flag is `0` and marking
it printed.  Returns the new state and the emitted `(slot, contents)`
events, in emission order. -/
def RingBuffer.collectTo (s : RingBuffer) (start : ℕ) :
    RingBuffer × List (ℕ × List ℕ) :=
  let r := (wrapIdxs start s.buffer_num).foldl (collectStep s.buffer)
    (s.buffer_print_flag, [])
  ({ s with buffer_print_flag := r.1 }, r.2)

/-- `RingBuffer::readFrom(reader, collector)` — one read cycle: grab the next
slot and advance the cursor; read a chunk into the slot and clear its print
flag; on `nread <= 0` force-flush if a match is tracked and return `false`;
otherwise register a match only when none is tracked, flush when the cursor
has come around to `matched + N/2 (mod N)`, and return `true`.  Returns
(continue?, new buffer state, new reader state, emitted events). -/
def RingBuffer.readFrom (s : RingBuffer) (r : StreamReader) :
    Bool × RingBuffer × StreamReader × List (ℕ × List ℕ) :=
  let buffer_idx := s.next_buffer_idx
  let s1 := { s with next_buffer_idx := (s.next_buffer_idx + 1) % s.buffer_num }
  let rr := r.read s1.buffer_size
  let nread := rr.1
  let chunk := rr.2.1
  let r1 := rr.2.2
  let s2 := { s1 with
    buffer := s1.buffer.set buffer_idx
      (writeChunk (s1.buffer.getD buffer_idx []) chunk)
    buffer_print_flag := s1.buffer_print_flag.set buffer_idx false }
  if nread ≤ 0 then
    if 0 ≤ s2.matched_buffer_idx then
      let start := ((s2.matched_buffer_idx + (s2.buffer_num : ℤ) / 2) %
        (s2.buffer_num : ℤ)).toNat
      let c := s2.collectTo start
      (false, { c.1 with matched_buffer_idx := -1 }, r1, c.2)
    else
      (false, s2, r1, [])
  else
    let s3 := if s2.matched_buffer_idx < 0 ∧ Target.matches s2.target chunk then
        { s2 with matched_buffer_idx := (buffer_idx : ℤ) }
      else s2
    if 0 ≤ s3.matched_buffer_idx then
      let start := ((s3.matched_buffer_idx + (s3.buffer_num : ℤ) / 2) %
        (s3.buffer_num : ℤ)).toNat
      if s3.next_buffer_idx = start then
        let c := s3.collectTo start
        (true, { c.1 with matched_buffer_idx := -1 }, r1, c.2)
      else
        (true, s3, r1, [])
    else
      (true, s3, r1, [])

/-- The driver loop `while (buffer.readFrom(&reader, &collector)) { }`,
with explicit fuel (each call makes progress on the stream, so any fuel
beyond the number of read cycles gives the loop's complete behavior).
Returns the per-cycle emission event lists, one entry per executed cycle. -/
def runLoop : ℕ → RingBuffer → StreamReader → List (List (ℕ × List ℕ))
  | 0, _, _ => []
  | fuel + 1, s, r =>
    let res := s.readFrom r
    if res.1 then res.2.2.2 :: runLoop fuel res.2.1 res.2.2.1
    else [res.2.2.2]

/-- The byte stream a flush's events send to the collector. -/
def eventBytes (evs : List (ℕ × List ℕ)) : List ℕ :=
  (evs.map Prod.snd).flatten

/-- Everything the collector receives over a whole run. -/
def outBytes (trace : List (List (ℕ × List ℕ))) : List ℕ :=
  (trace.map eventBytes).flatten

/-- ASCII byte string, for concrete runs. -/
def sb (s : String) : List ℕ :=
  s.data.map Char.toNat

/-- C5: the source's own first self-test.  With `N = 4` slots, `S = 4` bytes
and the single pattern `"ab"`, scanning the 52-byte input in 4-byte chunks
until exhaustion produces exactly two flushes, `"11112222aaab3333"` then
`"cccc5555aaab6666"`, and the sink receives exactly their concatenation.
The loop terminates by itself after 14 cycles (fuel 20 is not exhausted). -/
theorem example_two_flushes :
    (runLoop 20
      (RingBuffer.init 4 4 [sb "ab"] fun _ => List.replicate 4 0)
      ⟨sb "000011112222aaab3333bbbb4444cccc5555aaab666677778888",
        false⟩).length = 14 ∧
    ((runLoop 20
      (RingBuffer.init 4 4 [sb "ab"] fun _ => List.replicate 4 0)
      ⟨sb "000011112222aaab3333bbbb4444cccc5555aaab666677778888",
        false⟩).map eventBytes).filter (fun l => !l.isEmpty) =
      [sb "11112222aaab3333", sb "cccc5555aaab6666"] ∧
    outBytes (runLoop 20
      (RingBuffer.init 4 4 [sb "ab"] fun _ => List.replicate 4 0)
      ⟨sb "000011112222aaab3333bbbb4444cccc5555aaab666677778888", false⟩) =
    sb "11112222aaab3333cccc5555aaab6666" := by decide

/-- C1 fails on the code: with `N = 4`, `S = 4`, pattern `"ab"` and input
`"0000aaab1111aaab"` (read to exhaustion), slot 0's content `"0000"` is
flushed in cycle 3 (`"0000aaab1111"`) and then flushed AGAIN by the forced
end-of-stream flush of cycle 5, although slot 0 was never rewritten after
cycle 1.  The cause: `readFrom` clears the slot's print flag before the
`nread <= 0` end-of-stream check, so the final flush re-emits the stale,
already-flushed slot.  The sink receives `"0000aaab1111aaab0000"`, with the
byte range `"0000"` duplicated. -/
theorem eos_flush_duplicates_bytes :
    runLoop 8 (RingBuffer.init 4 4 [sb "ab"] fun _ => List.replicate 4 42)
      ⟨sb "0000aaab1111aaab", false⟩ =
      [[], [],
        [(0, sb "0000"), (1, sb "aaab"), (2, sb "1111")], [],
        [(3, sb "aaab"), (0, sb "0000")]] ∧
    outBytes (runLoop 8
      (RingBuffer.init 4 4 [sb "ab"] fun _ => List.replicate 4 42)
      ⟨sb "0000aaab1111aaab", false⟩) = sb "0000aaab1111aaab0000" ∧
    (0, sb "0000") ∈ (runLoop 8
      (RingBuffer.init 4 4 [sb "ab"] fun _ => List.replicate 4 42)
      ⟨sb "0000aaab1111aaab", false⟩).getD 2 [] ∧
    (0, sb "0000") ∈ (runLoop 8
      (RingBuffer.init 4 4 [sb "ab"] fun _ => List.replicate 4 42)
      ⟨sb "0000aaab1111aaab", false⟩).getD 4 [] := by decide

/-- C6 fails on the code: with `N = 4`, `S = 4`, pattern `"ab"` and the
single-chunk input `"aaab"`, the forced end-of-stream flush emits slot 1
with its initial, never-written contents (modelled by the sentinel bytes
`[104, 104, 104, 104]`, which occur nowhere in the input).  Cycle 2's read
returns `0`, but `readFrom` has already cleared slot 1's print flag, so
`collectTo` emits the uninitialized slot.  (Also, immediately after
construction every print flag is `1`, i.e. "already printed": the pending
state in the claim's sense is initially FALSE, and it is precisely the
erroneous pre-check flag clearing that turns the unwritten slot pending.) -/
theorem eos_flush_emits_unwritten_slot :
    runLoop 8 (RingBuffer.init 4 4 [sb "ab"]
        fun i => [103 + i, 103 + i, 103 + i, 103 + i])
      ⟨sb "aaab", false⟩ =
      [[], [(0, sb "aaab"), (1, [104, 104, 104, 104])]] ∧
    outBytes (runLoop 8 (RingBuffer.init 4 4 [sb "ab"]
        fun i => [103 + i, 103 + i, 103 + i, 103 + i])
      ⟨sb "aaab", false⟩) = sb "aaab" ++ [104, 104, 104, 104] ∧
    (∀ b ∈ [104, 104, 104, 104], b ∉ sb "aaab") ∧
    (RingBuffer.init 4 4 [sb "ab"]
        fun i => [103 + i, 103 + i, 103 + i, 103 + i]).buffer_print_flag =
      [true, true, true, true] := by decide

/-- C3 as stated fails on the code, in two independent ways.

First, a non-overlapping window need not emit `N * S` bytes: with `N = 4`,
`S = 4`, pattern `"ab"` and the repository's own fourth self-test input
`"aaab0000111122223333bbbb4444cccc"`, the match is found in the very first
slot (cycle 1 turns `matched_buffer_idx` from `-1` to `0`) and the run's
first — hence non-overlapping — flush, in cycle 2, emits only the two slots
written so far: `(0, "aaab") (1, "0000")`, i.e. `2 * S = 8` bytes, not
`N * S = 16`, with the matched slot's content at position `0`; the claimed
position `N / 2 = 2` lies outside the 2-slot flushed sequence.

Second, even a full flush of all `N` freshly written slots centers the
match at position `N - N/2`, not `N / 2`, when `N` is odd: with `N = 3`,
`S = 1`, pattern `"a"` (`[97]`) and input `"xya"` (`[120, 121, 97]`), the
match is found in slot 2 during cycle 3 (the state before that cycle is
idle with the cursor at slot 2) and the very same cycle performs a full,
non-overlapping flush of all `N` slots, emitting `N * S = 3` bytes
`(0, "x") (1, "y") (2, "a")`.  The matched slot's content `"a"` sits at
slot position `2` of the flushed sequence, not at position `N / 2 = 1`,
which holds `"y"`. -/
theorem window_size_and_center_counterexample :
    (runLoop 12 (RingBuffer.init 4 4 [sb "ab"] fun _ => List.replicate 4 42)
      ⟨sb "aaab0000111122223333bbbb4444cccc", false⟩ =
      [[], [(0, sb "aaab"), (1, sb "0000")], [], [], [], [], [], [], []] ∧
     ((RingBuffer.init 4 4 [sb "ab"] fun _ => List.replicate 4 42).readFrom
        ⟨sb "aaab0000111122223333bbbb4444cccc",
          false⟩).2.1.matched_buffer_idx = 0 ∧
     (eventBytes [(0, sb "aaab"), (1, sb "0000")]).length = 2 * 4 ∧
     2 * 4 ≠ 4 * 4 ∧
     [(0, sb "aaab"), (1, sb "0000")].getD 0 (0, []) = (0, sb "aaab") ∧
     [(0, sb "aaab"), (1, sb "0000")].length = 2 ∧
     ¬(4 : ℕ) / 2 < 2) ∧
    (runLoop 8 (RingBuffer.init 3 1 [[97]] fun _ => [0])
      ⟨[120, 121, 97], false⟩ =
      [[], [], [(0, [120]), (1, [121]), (2, [97])], []] ∧
     (let s0 := RingBuffer.init 3 1 [[97]] fun _ => [0]
      let c1 := s0.readFrom ⟨[120, 121, 97], false⟩
      let c2 := c1.2.1.readFrom c1.2.2.1
      c2.2.1.matched_buffer_idx = -1 ∧ c2.2.1.next_buffer_idx = 2 ∧
        Target.matches [[97]] [97] = true) ∧
     (eventBytes [(0, [120]), (1, [121]), (2, [97])]).length = 3 * 1 ∧
     (3 : ℕ) / 2 = 1 ∧
     [(0, [120]), (1, [121]), (2, [97])].getD (3 / 2) (0, []) = (1, [121]) ∧
     ([121] : List ℕ) ≠ [97]) := by decide

/-! ### Basic lemmas about the embedded operations -/

theorem writeChunk_length (content chunk : List ℕ)
    (h : chunk.length ≤ content.length) :
    (writeChunk content chunk).length = content.length := by
  simp [writeChunk]
  omega

/-- `memmem` finds the needle iff it occurs contiguously in the haystack. -/
theorem memmemFound_iff (hay needle : List ℕ) :
    memmemFound hay needle = true ↔
      ∃ pre post, hay = pre ++ needle ++ post := by
  unfold memmemFound
  rw [List.any_eq_true]
  constructor
  · rintro ⟨i, _, hpre⟩
    rw [decide_eq_true_eq] at hpre
    obtain ⟨t, ht⟩ := hpre
    exact ⟨hay.take i, t, by rw [List.append_assoc, ht, List.take_append_drop]⟩
  · rintro ⟨pre, post, rfl⟩
    refine ⟨pre.length, ?_, ?_⟩
    · rw [List.mem_range]
      simp
      omega
    · rw [decide_eq_true_eq, List.append_assoc, List.drop_left]
      exact ⟨post, rfl⟩

/-- The `collectTo` loop accumulator: final emissions are the not-yet-printed
slots among the traversed indices, in traversal order. -/
theorem collectStep_foldl_events (buf : List (List ℕ)) (L : List ℕ) :
    ∀ (flags : List Bool) (out : List (ℕ × List ℕ)), L.Nodup →
      (L.foldl (collectStep buf) (flags, out)).2 =
        out ++ (L.filter fun i => !flags.getD i true).map
          fun i => (i, buf.getD i []) := by
  induction L with
  | nil =>
    intro flags out _
    simp
  | cons i L ih =>
    intro flags out h
    have hni : i ∉ L := h.not_mem
    rw [List.foldl_cons]
    by_cases hf : flags.getD i true = false
    · rw [show collectStep buf (flags, out) i =
        (flags.set i true, out ++ [(i, buf.getD i [])]) by
          unfold collectStep; exact if_pos hf]
      rw [ih _ _ h.of_cons]
      have hcong : (L.filter fun j => !(flags.set i true).getD j true) =
          L.filter fun j => !flags.getD j true := by
        apply List.filter_congr
        intro j hj
        have hij : i ≠ j := fun e => hni (e ▸ hj)
        simp [List.getD_eq_getElem?_getD, List.getElem?_set_ne hij]
      rw [hcong, List.filter_cons_of_pos (by rw [hf]; rfl), List.map_cons]
      simp
    · have hf' : flags.getD i true = true := by
        revert hf; cases flags.getD i true <;> simp
      rw [show collectStep buf (flags, out) i = (flags, out) by
        unfold collectStep; exact if_neg hf]
      rw [ih _ _ h.of_cons,
        List.filter_cons_of_neg (by rw [hf']; simp)]

/-- The `collectTo` loop never changes the number of flag entries. -/
theorem collectStep_foldl_length (buf : List (List ℕ)) (L : List ℕ) :
    ∀ (flags : List Bool) (out : List (ℕ × List ℕ)),
      (L.foldl (collectStep buf) (flags, out)).1.length = flags.length := by
  induction L with
  | nil =>
    intro flags out
    rfl
  | cons i L ih =>
    intro flags out
    rw [List.foldl_cons]
    by_cases hf : flags.getD i true = false
    · rw [show collectStep buf (flags, out) i =
        (flags.set i true, out ++ [(i, buf.getD i [])]) by
          unfold collectStep; exact if_pos hf]
      rw [ih]
      exact List.length_set ..
    · rw [show collectStep buf (flags, out) i = (flags, out) by
        unfold collectStep; exact if_neg hf]
      exact ih ..

theorem wrapIdxs_nodup (start n : ℕ) : (wrapIdxs start n).Nodup := by
  unfold wrapIdxs
  rw [List.nodup_append]
  refine ⟨List.nodup_range' start (n - start), List.nodup_range start, ?_⟩
  intro a ha hb
  rw [List.mem_range'_1] at ha
  rw [List.mem_range] at hb
  omega

theorem wrapIdxs_mem_lt {start n i : ℕ} (hs : start ≤ n)
    (h : i ∈ wrapIdxs start n) : i < n := by
  unfold wrapIdxs at h
  rw [List.mem_append, List.mem_range'_1, List.mem_range] at h
  omega

theorem wrapIdxs_length {start n : ℕ} (hs : start ≤ n) :
    (wrapIdxs start n).length = n := by
  unfold wrapIdxs
  simp
  omega

/-- Characterization of a flush: `collectTo start` emits exactly the
not-yet-printed slots, in the wrap-around order `start, …, N-1, 0, …,
start-1`, each with its full slot contents. -/
theorem collectTo_events (s : RingBuffer) (start : ℕ) :
    (s.collectTo start).2 =
      ((wrapIdxs start s.buffer_num).filter fun i =>
        !s.buffer_print_flag.getD i true).map
        fun i => (i, s.buffer.getD i []) := by
  unfold RingBuffer.collectTo
  exact collectStep_foldl_events _ _ _ _ (wrapIdxs_nodup ..)

theorem collectTo_state (s : RingBuffer) (start : ℕ) :
    (s.collectTo start).1.buffer = s.buffer ∧
    (s.collectTo start).1.buffer_num = s.buffer_num ∧
    (s.collectTo start).1.buffer_size = s.buffer_size ∧
    (s.collectTo start).1.next_buffer_idx = s.next_buffer_idx ∧
    (s.collectTo start).1.matched_buffer_idx = s.matched_buffer_idx ∧
    (s.collectTo start).1.buffer_print_flag.length =
      s.buffer_print_flag.length := by
  refine ⟨rfl, rfl, rfl, rfl, rfl, ?_⟩
  exact collectStep_foldl_length ..

/-- The flush-start computation `(m + N/2) % N` done in `int` arithmetic,
as the source does, agrees with the natural-number version and is `< N`. -/
theorem startToNat {m : ℤ} (N : ℕ) (hm : 0 ≤ m) (hN : 0 < N) :
    ((m + (N : ℤ) / 2) % (N : ℤ)).toNat = (m.toNat + N / 2) % N ∧
    ((m + (N : ℤ) / 2) % (N : ℤ)).toNat < N := by
  have h1 : m = (m.toNat : ℤ) := (Int.toNat_of_nonneg hm).symm
  have h2 : (m + (N : ℤ) / 2) % (N : ℤ) =
      (((m.toNat + N / 2) % N : ℕ) : ℤ) := by
    conv_lhs => rw [h1]
    norm_cast
  rw [h2, Int.toNat_ofNat]
  exact ⟨rfl, Nat.mod_lt _ hN⟩

theorem read_chunk_length_le (r : StreamReader) (n : ℕ) :
    (r.read n).2.1.length ≤ n := by
  unfold StreamReader.read
  split
  · simp
  · simp [List.length_take]

theorem read_pos (r : StreamReader) (n : ℕ) (heof : r.eofFlag = false)
    (hne : r.data ≠ []) (hn : 0 < n) :
    0 < (r.read n).1 ∧ (r.read n).2.1 = r.data.take n ∧
    (r.read n).2.2 =
      ⟨r.data.drop n, decide ((r.data.take n).length < n)⟩ := by
  unfold StreamReader.read
  rw [if_neg (by rw [heof]; exact Bool.false_ne_true)]
  refine ⟨?_, rfl, rfl⟩
  have : r.data.length ≠ 0 := fun h => hne (List.eq_nil_of_length_eq_zero h)
  simp [List.length_take]
  omega

/-- What one `readFrom` cycle does to the buffer state, uniformly over all
branches: the cycle's slot is overwritten with the chunk read, the buffer
geometry is untouched, and the reader advances by one `read`. -/
theorem readFrom_components (s : RingBuffer) (r : StreamReader) :
    (s.readFrom r).2.1.buffer = s.buffer.set s.next_buffer_idx
        (writeChunk (s.buffer.getD s.next_buffer_idx [])
          (r.read s.buffer_size).2.1) ∧
    (s.readFrom r).2.1.buffer_num = s.buffer_num ∧
    (s.readFrom r).2.1.buffer_size = s.buffer_size ∧
    (s.readFrom r).2.1.buffer_print_flag.length =
      s.buffer_print_flag.length ∧
    (s.readFrom r).2.2.1 = (r.read s.buffer_size).2.2 := by
  unfold RingBuffer.readFrom
  dsimp only
  repeat' split
  all_goals exact ⟨rfl, rfl, rfl,
    by simp [RingBuffer.collectTo, collectStep_foldl_length,
      List.length_set], rfl⟩

/-- C9: no read cycle and no flush changes the buffer's shape: the slot
count `N`, the slot size `S`, the length of the slot array and of the flag
array are all exactly as at construction, and every slot still holds `S`
bytes, no matter how much input has been consumed. -/
theorem shape_preserved (s : RingBuffer) (r : StreamReader) (start : ℕ)
    (hnext : s.next_buffer_idx < s.buffer_num)
    (hblen : s.buffer.length = s.buffer_num)
    (hflen : s.buffer_print_flag.length = s.buffer_num)
    (hSlen : ∀ c ∈ s.buffer, c.length = s.buffer_size) :
    ((s.readFrom r).2.1.buffer_num = s.buffer_num ∧
      (s.readFrom r).2.1.buffer_size = s.buffer_size ∧
      (s.readFrom r).2.1.buffer.length = s.buffer_num ∧
      (s.readFrom r).2.1.buffer_print_flag.length = s.buffer_num ∧
      ∀ c ∈ (s.readFrom r).2.1.buffer, c.length = s.buffer_size) ∧
    ((s.collectTo start).1.buffer = s.buffer ∧
      (s.collectTo start).1.buffer_num = s.buffer_num ∧
      (s.collectTo start).1.buffer_size = s.buffer_size ∧
      (s.collectTo start).1.buffer_print_flag.length = s.buffer_num) := by
  obtain ⟨hb, hn, hs, hf, _⟩ := readFrom_components s r
  have hidx : s.next_buffer_idx < s.buffer.length := by rw [hblen]; exact hnext
  have hold : s.buffer.getD s.next_buffer_idx [] =
      s.buffer[s.next_buffer_idx] := by
    rw [List.getD_eq_getElem?_getD, List.getElem?_eq_getElem hidx]
    rfl
  refine ⟨⟨hn, hs, by rw [hb, List.length_set, hblen],
    by rw [hf, hflen], ?_⟩, ⟨(collectTo_state s start).1,
    (collectTo_state s start).2.1, (collectTo_state s start).2.2.1,
    by rw [(collectTo_state s start).2.2.2.2.2, hflen]⟩⟩
  rw [hb]
  intro c hc
  rcases List.mem_or_eq_of_mem_set hc with h | h
  · exact hSlen c h
  · rw [h, writeChunk_length]
    · rw [hold]
      exact hSlen _ (List.getElem_mem ..)
    · rw [hold, hSlen _ (List.getElem_mem ..)]
      exact read_chunk_length_le r s.buffer_size

/-- C7: at most one match window is tracked.  If a match is being tracked,
one read cycle either keeps the same `matched_buffer_idx` or resets it to
`-1` by flushing — it never registers a new match, even when a pattern
occurs in the freshly read chunk.  Moreover the tracked index is always
either `-1` or a valid slot index `< N`. -/
theorem single_active_match (s : RingBuffer) (r : StreamReader)
    (hnext : s.next_buffer_idx < s.buffer_num)
    (hwf : s.matched_buffer_idx = -1 ∨
      (0 ≤ s.matched_buffer_idx ∧
        s.matched_buffer_idx < (s.buffer_num : ℤ))) :
    (0 ≤ s.matched_buffer_idx →
      ((s.readFrom r).2.1.matched_buffer_idx = s.matched_buffer_idx ∨
        (s.readFrom r).2.1.matched_buffer_idx = -1)) ∧
    ((s.readFrom r).2.1.matched_buffer_idx = -1 ∨
      (0 ≤ (s.readFrom r).2.1.matched_buffer_idx ∧
        (s.readFrom r).2.1.matched_buffer_idx < (s.buffer_num : ℤ))) := by
  unfold RingBuffer.readFrom
  dsimp only
  repeat' split
  all_goals refine ⟨fun h0 => ?_, ?_⟩ <;> simp_all <;> omega

/-- After a read cycle writes its chunk into the cycle's slot, every slot
still holds exactly `S` bytes. -/
theorem writtenBuffer_lengths (s : RingBuffer) (r : StreamReader)
    (hnext : s.next_buffer_idx < s.buffer_num)
    (hblen : s.buffer.length = s.buffer_num)
    (hSlen : ∀ c ∈ s.buffer, c.length = s.buffer_size) :
    ∀ c ∈ s.buffer.set s.next_buffer_idx
        (writeChunk (s.buffer.getD s.next_buffer_idx [])
          (r.read s.buffer_size).2.1), c.length = s.buffer_size := by
  have hidx : s.next_buffer_idx < s.buffer.length := by rw [hblen]; exact hnext
  have hold : s.buffer.getD s.next_buffer_idx [] =
      s.buffer[s.next_buffer_idx] := by
    rw [List.getD_eq_getElem?_getD, List.getElem?_eq_getElem hidx]
    rfl
  intro c hc
  rcases List.mem_or_eq_of_mem_set hc with h | h
  · exact hSlen c h
  · rw [h, writeChunk_length]
    · rw [hold]
      exact hSlen _ (List.getElem_mem ..)
    · rw [hold, hSlen _ (List.getElem_mem ..)]
      exact read_chunk_length_le r s.buffer_size

/-- C4: one read cycle returns `false` exactly when the source read returns
`n <= 0`; in that case a tracked match triggers exactly one forced flush of
the still-pending slots, starting at the precomputed flush-start index
`(matched + N/2) mod N`, and tracking is cleared to idle; with no tracked
match nothing is emitted; and in either case the driver loop stops with
this cycle's emission as its last. -/
theorem eos_returns_false_and_forced_flush (s : RingBuffer)
    (r : StreamReader) :
    ((s.readFrom r).1 = false ↔ (r.read s.buffer_size).1 ≤ 0) ∧
    ((r.read s.buffer_size).1 ≤ 0 →
      (let s2 : RingBuffer := { s with
          next_buffer_idx := (s.next_buffer_idx + 1) % s.buffer_num
          buffer := s.buffer.set s.next_buffer_idx
            (writeChunk (s.buffer.getD s.next_buffer_idx [])
              (r.read s.buffer_size).2.1)
          buffer_print_flag :=
            s.buffer_print_flag.set s.next_buffer_idx false }
       let start := ((s.matched_buffer_idx + (s.buffer_num : ℤ) / 2) %
          (s.buffer_num : ℤ)).toNat
       (0 ≤ s.matched_buffer_idx →
         (s.readFrom r).2.2.2 =
           ((wrapIdxs start s.buffer_num).filter fun i =>
             !s2.buffer_print_flag.getD i true).map
             (fun i => (i, s2.buffer.getD i [])) ∧
         (s.readFrom r).2.1.matched_buffer_idx = -1) ∧
       (s.matched_buffer_idx < 0 →
         (s.readFrom r).2.2.2 = [] ∧
         (s.readFrom r).2.1.matched_buffer_idx = s.matched_buffer_idx)) ∧
      ∀ fuel, runLoop (fuel + 1) s r = [(s.readFrom r).2.2.2]) := by
  have hiff : (s.readFrom r).1 = false ↔ (r.read s.buffer_size).1 ≤ 0 := by
    unfold RingBuffer.readFrom
    dsimp only
    repeat' split
    all_goals simp_all
  refine ⟨hiff, fun h => ⟨?_, fun fuel => ?_⟩⟩
  · dsimp only
    unfold RingBuffer.readFrom
    dsimp only
    rw [if_pos h]
    by_cases hm : 0 ≤ s.matched_buffer_idx
    · rw [if_pos hm]
      exact ⟨fun _ => ⟨collectTo_events _ _, rfl⟩,
        fun hlt => absurd hm (not_le.2 hlt)⟩
    · rw [if_neg hm]
      exact ⟨fun hge => absurd hge hm, fun _ => ⟨rfl, rfl⟩⟩
  · have h1 : (s.readFrom r).1 = false := hiff.2 h
    simp [runLoop, h1]

/-- C10: an empty pattern is accepted by `addTarget` and makes `match`
return true for every probed buffer, the empty probe included (`memmem`
with needle length `0` returns the haystack pointer).  Consequently, while
idle, any read cycle that obtains `n > 0` bytes registers a match at the
slot just written (and immediately flushes it when the cursor has already
reached the flush-start index, which requires `N <= 3`). -/
theorem empty_pattern_always_matches (ts : List (List ℕ)) (buf : List ℕ)
    (s : RingBuffer) (r : StreamReader)
    (hmem : [] ∈ ts) (hts : s.target = ts)
    (hidle : s.matched_buffer_idx < 0)
    (heof : r.eofFlag = false) (hne : r.data ≠ []) (hS : 0 < s.buffer_size) :
    Target.matches ts buf = true ∧ Target.matches ts [] = true ∧
    (s.readFrom r).2.1.matched_buffer_idx =
      (if (s.next_buffer_idx + 1) % s.buffer_num =
          (((s.next_buffer_idx : ℤ) + (s.buffer_num : ℤ) / 2) %
            (s.buffer_num : ℤ)).toNat
        then -1 else (s.next_buffer_idx : ℤ)) := by
  have hM : ∀ b : List ℕ, Target.matches ts b = true := by
    intro b
    unfold Target.matches
    rw [List.any_eq_true]
    exact ⟨[], hmem, (memmemFound_iff b []).2 ⟨[], b, by simp⟩⟩
  refine ⟨hM buf, hM [], ?_⟩
  have hpos : 0 < (r.read s.buffer_size).1 :=
    (read_pos r s.buffer_size heof hne hS).1
  have hreg : s.matched_buffer_idx < 0 ∧
      Target.matches s.target (r.read s.buffer_size).2.1 = true :=
    ⟨hidle, by rw [hts]; exact hM _⟩
  unfold RingBuffer.readFrom
  dsimp only
  rw [if_neg (by omega : ¬(r.read s.buffer_size).1 ≤ 0), if_pos hreg]
  dsimp only
  rw [if_pos (by positivity : (0 : ℤ) ≤ (s.next_buffer_idx : ℤ))]
  by_cases hc : (s.next_buffer_idx + 1) % s.buffer_num =
      (((s.next_buffer_idx : ℤ) + (s.buffer_num : ℤ) / 2) %
        (s.buffer_num : ℤ)).toNat
  · rw [if_pos hc, if_pos hc]
  · rw [if_neg hc, if_neg hc]

/-- C2: while a match is tracked and the read obtains `n > 0` bytes, the
flush start is `(matched + N/2) mod N` (integer division, `int` arithmetic
as in the source); the flush happens exactly when the advanced write cursor
equals that index; and it emits the still-pending slots in the wrap-around
order `flushStart, …, N-1, 0, …, flushStart-1`, each with its full `S`-byte
content.  Otherwise nothing is emitted and the tracked index is kept. -/
theorem tracking_flush_timing (s : RingBuffer) (r : StreamReader) (m : ℤ)
    (hm : s.matched_buffer_idx = m) (hm0 : 0 ≤ m)
    (hN : 0 < s.buffer_num)
    (hnext : s.next_buffer_idx < s.buffer_num)
    (heof : r.eofFlag = false) (hne : r.data ≠ []) (hS : 0 < s.buffer_size)
    (hblen : s.buffer.length = s.buffer_num)
    (hSlen : ∀ c ∈ s.buffer, c.length = s.buffer_size) :
    (s.readFrom r).1 = true ∧
    (let buf2 := s.buffer.set s.next_buffer_idx
        (writeChunk (s.buffer.getD s.next_buffer_idx [])
          (r.read s.buffer_size).2.1)
     let flags2 := s.buffer_print_flag.set s.next_buffer_idx false
     let start := ((m + (s.buffer_num : ℤ) / 2) % (s.buffer_num : ℤ)).toNat
     ((s.next_buffer_idx + 1) % s.buffer_num = start →
        (s.readFrom r).2.2.2 =
          ((wrapIdxs start s.buffer_num).filter fun i =>
            !flags2.getD i true).map (fun i => (i, buf2.getD i [])) ∧
        (s.readFrom r).2.1.matched_buffer_idx = -1 ∧
        ∀ e ∈ (s.readFrom r).2.2.2, (e.2).length = s.buffer_size) ∧
     ((s.next_buffer_idx + 1) % s.buffer_num ≠ start →
        (s.readFrom r).2.2.2 = [] ∧
        (s.readFrom r).2.1.matched_buffer_idx = m)) := by
  subst hm
  have hpos : 0 < (r.read s.buffer_size).1 :=
    (read_pos r s.buffer_size heof hne hS).1
  have hstart := startToNat s.buffer_num hm0 hN
  have hlen2 : ∀ e ∈ ((wrapIdxs
      ((s.matched_buffer_idx + (s.buffer_num : ℤ) / 2) %
        (s.buffer_num : ℤ)).toNat s.buffer_num).filter fun i =>
        !(s.buffer_print_flag.set s.next_buffer_idx false).getD i true).map
        (fun i => (i, (s.buffer.set s.next_buffer_idx
          (writeChunk (s.buffer.getD s.next_buffer_idx [])
            (r.read s.buffer_size).2.1)).getD i [])),
      (e.2).length = s.buffer_size := by
    intro e he
    rw [List.mem_map] at he
    obtain ⟨i, hi, rfl⟩ := he
    have hiN : i < s.buffer_num :=
      wrapIdxs_mem_lt (le_of_lt hstart.2) (List.mem_of_mem_filter hi)
    have hilt : i < (s.buffer.set s.next_buffer_idx
        (writeChunk (s.buffer.getD s.next_buffer_idx [])
          (r.read s.buffer_size).2.1)).length := by
      rw [List.length_set, hblen]
      exact hiN
    dsimp only
    rw [List.getD_eq_getElem?_getD, List.getElem?_eq_getElem hilt]
    exact writtenBuffer_lengths s r hnext hblen hSlen _
      (List.getElem_mem ..)
  have hnreg : ¬(s.matched_buffer_idx < 0 ∧
      Target.matches s.target (r.read s.buffer_size).2.1 = true) :=
    fun hcc => absurd hcc.1 (not_lt.2 hm0)
  unfold RingBuffer.readFrom
  dsimp only
  rw [if_neg (by omega : ¬(r.read s.buffer_size).1 ≤ 0), if_neg hnreg]
  dsimp only
  rw [if_pos hm0]
  by_cases hc : (s.next_buffer_idx + 1) % s.buffer_num =
      ((s.matched_buffer_idx + (s.buffer_num : ℤ) / 2) %
        (s.buffer_num : ℤ)).toNat
  · rw [if_pos hc]
    exact ⟨rfl, fun _ => ⟨collectTo_events _ _, rfl, by
      rw [collectTo_events]; exact hlen2⟩, fun hne' => absurd hc hne'⟩
  · rw [if_neg hc]
    exact ⟨rfl, fun hc' => absurd hc' hc, fun _ => ⟨rfl, rfl⟩⟩

/-- Where the matched slot `m` sits inside the flush order that starts at
`(m + N/2) mod N`: at position `(N - N/2) mod N` — i.e. `⌈N/2⌉` for `N > 1`,
which equals `N/2` exactly when `N` is even (or `N = 1`). -/
theorem wrapIdxs_center (N m : ℕ) (hN : 0 < N) (hm : m < N) :
    (wrapIdxs ((m + N / 2) % N) N).getD ((N - N / 2) % N) 0 = m := by
  have hstart_lt : (m + N / 2) % N < N := Nat.mod_lt _ hN
  have hp_lt : (N - N / 2) % N < N := Nat.mod_lt _ hN
  have hplen : (N - N / 2) % N <
      (wrapIdxs ((m + N / 2) % N) N).length := by
    rw [wrapIdxs_length (le_of_lt hstart_lt)]
    exact hp_lt
  have hs : (m + N / 2) % N = m + N / 2 ∨
      (N ≤ m + N / 2 ∧ (m + N / 2) % N = m + N / 2 - N) := by
    rcases Nat.lt_or_ge (m + N / 2) N with h | h
    · exact Or.inl (Nat.mod_eq_of_lt h)
    · refine Or.inr ⟨h, ?_⟩
      rw [Nat.mod_eq_sub_mod h, Nat.mod_eq_of_lt (by omega)]
  have hp : (N - N / 2) % N = N - N / 2 ∨
      (N / 2 = 0 ∧ (N - N / 2) % N = 0) := by
    rcases Nat.lt_or_ge (N - N / 2) N with h | h
    · exact Or.inl (Nat.mod_eq_of_lt h)
    · have h0 : N / 2 = 0 := by omega
      refine Or.inr ⟨h0, ?_⟩
      rw [h0, Nat.sub_zero, Nat.mod_self]
  rw [List.getD_eq_getElem?_getD, List.getElem?_eq_getElem hplen,
    Option.getD_some]
  unfold wrapIdxs
  rw [List.getElem_append]
  split
  · next h' =>
    rw [List.getElem_range'_1]
    simp only [List.length_range'] at h'
    have hdiv : N / 2 ≤ N := Nat.div_le_self N 2
    rcases hs with hs | hs <;> rcases hp with hp | hp <;> omega
  · next h' =>
    rw [List.getElem_range]
    simp only [List.length_range'] at h' ⊢
    have hdiv : N / 2 ≤ N := Nat.div_le_self N 2
    rcases hs with hs | hs <;> rcases hp with hp | hp <;> omega

/-- C3, amended: when every slot is still pending at the moment of the
flush — i.e. every slot was freshly written since the last flush, which
excludes both overlap with a previously flushed window and never-written
slots (a match before the ring is primed) — the flush emits exactly
`N * S` bytes, and the matched slot's content sits at slot position
`(N - N/2) mod N` of the flushed sequence — which is `N/2` only when `N`
is even (or `N = 1`); for odd `N >= 3` it is `⌈N/2⌉`. -/
theorem full_window_flush_size_and_center (s : RingBuffer) (m : ℕ)
    (hN : 0 < s.buffer_num) (hm : m < s.buffer_num)
    (hblen : s.buffer.length = s.buffer_num)
    (hflen : s.buffer_print_flag.length = s.buffer_num)
    (hSlen : ∀ c ∈ s.buffer, c.length = s.buffer_size)
    (hpend : ∀ b ∈ s.buffer_print_flag, b = false) :
    (eventBytes (s.collectTo (((m : ℤ) + (s.buffer_num : ℤ) / 2) %
        (s.buffer_num : ℤ)).toNat).2).length =
      s.buffer_num * s.buffer_size ∧
    (s.collectTo (((m : ℤ) + (s.buffer_num : ℤ) / 2) %
        (s.buffer_num : ℤ)).toNat).2.length = s.buffer_num ∧
    (s.collectTo (((m : ℤ) + (s.buffer_num : ℤ) / 2) %
        (s.buffer_num : ℤ)).toNat).2.getD
        ((s.buffer_num - s.buffer_num / 2) % s.buffer_num) (0, []) =
      (m, s.buffer.getD m []) := by
  have hstart := startToNat (m := (m : ℤ)) s.buffer_num
    (Int.ofNat_nonneg m) hN
  simp only [Int.toNat_ofNat] at hstart
  rw [hstart.1]
  have hsN : (m + s.buffer_num / 2) % s.buffer_num < s.buffer_num :=
    Nat.mod_lt _ hN
  have hflagf : ∀ i ∈ wrapIdxs ((m + s.buffer_num / 2) % s.buffer_num)
      s.buffer_num, (!s.buffer_print_flag.getD i true) = true := by
    intro i hi
    have hiN : i < s.buffer_num := wrapIdxs_mem_lt (le_of_lt hsN) hi
    have hilt : i < s.buffer_print_flag.length := by
      rw [hflen]
      exact hiN
    rw [List.getD_eq_getElem?_getD, List.getElem?_eq_getElem hilt,
      Option.getD_some, hpend _ (List.getElem_mem ..)]
    rfl
  have hev : (s.collectTo ((m + s.buffer_num / 2) % s.buffer_num)).2 =
      (wrapIdxs ((m + s.buffer_num / 2) % s.buffer_num) s.buffer_num).map
        (fun i => (i, s.buffer.getD i [])) := by
    rw [collectTo_events, List.filter_eq_self.2 hflagf]
  have hwlen : (wrapIdxs ((m + s.buffer_num / 2) % s.buffer_num)
      s.buffer_num).length = s.buffer_num := wrapIdxs_length (le_of_lt hsN)
  refine ⟨?_, ?_, ?_⟩
  · rw [hev]
    unfold eventBytes
    rw [List.map_map, List.length_flatten, List.map_map,
      List.map_congr_left (g := fun _ => s.buffer_size) ?_,
      List.map_const', List.sum_const_nat, hwlen]
    intro i hi
    have hiN : i < s.buffer_num := wrapIdxs_mem_lt (le_of_lt hsN) hi
    have hilt : i < s.buffer.length := by
      rw [hblen]
      exact hiN
    simp only [Function.comp]
    rw [List.getD_eq_getElem?_getD, List.getElem?_eq_getElem hilt,
      Option.getD_some]
    exact hSlen _ (List.getElem_mem ..)
  · rw [hev, List.length_map, hwlen]
  · have hplt : (s.buffer_num - s.buffer_num / 2) % s.buffer_num <
        ((wrapIdxs ((m + s.buffer_num / 2) % s.buffer_num)
          s.buffer_num).map (fun i => (i, s.buffer.getD i []))).length := by
      rw [List.length_map, hwlen]
      exact Nat.mod_lt _ hN
    have hplt' : (s.buffer_num - s.buffer_num / 2) % s.buffer_num <
        (wrapIdxs ((m + s.buffer_num / 2) % s.buffer_num)
          s.buffer_num).length := by
      rw [hwlen]
      exact Nat.mod_lt _ hN
    have hwc : (wrapIdxs ((m + s.buffer_num / 2) % s.buffer_num)
        s.buffer_num).getD
        ((s.buffer_num - s.buffer_num / 2) % s.buffer_num) 0 = m :=
      wrapIdxs_center s.buffer_num m hN hm
    rw [List.getD_eq_getElem?_getD, List.getElem?_eq_getElem hplt',
      Option.getD_some] at hwc
    rw [hev, List.getD_eq_getElem?_getD, List.getElem?_eq_getElem hplt,
      Option.getD_some, List.getElem_map, hwc]

/-- C8: `Target::match(buffer, len)` returns true iff some registered
pattern occurs as a contiguous byte subsequence of the probed bytes, and an
empty pattern set never matches.  (The scan is in registration order with a
`break` on the first hit, which the boolean result cannot observe.) -/
theorem matches_iff_contains_pattern (ts : List (List ℕ)) (buf : List ℕ) :
    (Target.matches ts buf = true ↔
      ∃ t ∈ ts, ∃ pre post, buf = pre ++ t ++ post) ∧
    Target.matches [] buf = false := by
  constructor
  · unfold Target.matches
    rw [List.any_eq_true]
    constructor
    · rintro ⟨t, ht, hm⟩
      exact ⟨t, ht, (memmemFound_iff buf t).1 hm⟩
    · rintro ⟨t, ht, h⟩
      exact ⟨t, ht, (memmemFound_iff buf t).2 h⟩
  · rfl

/-! ### Witnesses: the general theorems applied at concrete inputs -/

/-- Witness for the tracking-flush theorem: a 2-slot buffer tracking a
match in slot 0 with the cursor at slot 0 reaches the flush start after one
more read and flushes both pending slots in wrap-around order. -/
theorem tracking_flush_timing_witness :
    ((⟨[[1, 1], [2, 2]], 2, 2, 0, 0, [[9]], [false, false]⟩ :
        RingBuffer).readFrom ⟨[5, 5, 5, 5], false⟩).1 = true ∧
    ((⟨[[1, 1], [2, 2]], 2, 2, 0, 0, [[9]], [false, false]⟩ :
        RingBuffer).readFrom ⟨[5, 5, 5, 5], false⟩).2.2.2 =
      [(1, [2, 2]), (0, [5, 5])] ∧
    ((⟨[[1, 1], [2, 2]], 2, 2, 0, 0, [[9]], [false, false]⟩ :
        RingBuffer).readFrom
        ⟨[5, 5, 5, 5], false⟩).2.1.matched_buffer_idx = -1 := by
  have h := tracking_flush_timing
    (⟨[[1, 1], [2, 2]], 2, 2, 0, 0, [[9]], [false, false]⟩ : RingBuffer)
    ⟨[5, 5, 5, 5], false⟩ 0 rfl (by decide) (by decide) (by decide) rfl
    (by decide) (by decide) rfl (by decide)
  exact ⟨h.1, ((h.2.1 (by decide)).1).trans (by decide),
    (h.2.1 (by decide)).2.1⟩

/-- Witness for the full-window flush theorem: `N = 3`, `S = 1`, all slots
pending, match in slot 1; the flush emits `3 * 1` bytes and the matched
slot sits at position `(3 - 3/2) % 3 = 2`. -/
theorem full_window_flush_witness :
    (eventBytes ((⟨[[5], [6], [7]], 3, 1, 0, 0, [[7]],
        [false, false, false]⟩ : RingBuffer).collectTo
        (((1 : ℤ) + (3 : ℤ) / 2) % (3 : ℤ)).toNat).2).length = 3 * 1 ∧
    ((⟨[[5], [6], [7]], 3, 1, 0, 0, [[7]],
        [false, false, false]⟩ : RingBuffer).collectTo
        (((1 : ℤ) + (3 : ℤ) / 2) % (3 : ℤ)).toNat).2.length = 3 ∧
    ((⟨[[5], [6], [7]], 3, 1, 0, 0, [[7]],
        [false, false, false]⟩ : RingBuffer).collectTo
        (((1 : ℤ) + (3 : ℤ) / 2) % (3 : ℤ)).toNat).2.getD
        ((3 - 3 / 2) % 3) (0, []) = (1, [6]) :=
  full_window_flush_size_and_center
    (⟨[[5], [6], [7]], 3, 1, 0, 0, [[7]], [false, false, false]⟩ :
      RingBuffer) 1 (by decide) (by decide) rfl rfl (by decide) (by decide)

/-- Witness for the end-of-stream theorem: an exhausted reader makes the
cycle return false, force-flush the tracked window from the precomputed
start, clear tracking, and stop the driver loop with that one emission. -/
theorem eos_returns_false_witness :
    ((⟨[[3], [3]], 2, 1, 0, 0, [[9]], [false, false]⟩ :
        RingBuffer).readFrom ⟨[], true⟩).1 = false ∧
    ((⟨[[3], [3]], 2, 1, 0, 0, [[9]], [false, false]⟩ :
        RingBuffer).readFrom ⟨[], true⟩).2.2.2 = [(1, [3]), (0, [3])] ∧
    ((⟨[[3], [3]], 2, 1, 0, 0, [[9]], [false, false]⟩ :
        RingBuffer).readFrom ⟨[], true⟩).2.1.matched_buffer_idx = -1 ∧
    runLoop 1 (⟨[[3], [3]], 2, 1, 0, 0, [[9]], [false, false]⟩ :
        RingBuffer) ⟨[], true⟩ =
      [[(1, [3]), (0, [3])]] := by
  have h := eos_returns_false_and_forced_flush
    (⟨[[3], [3]], 2, 1, 0, 0, [[9]], [false, false]⟩ : RingBuffer)
    ⟨[], true⟩
  have hev : ((⟨[[3], [3]], 2, 1, 0, 0, [[9]], [false, false]⟩ :
      RingBuffer).readFrom ⟨[], true⟩).2.2.2 = [(1, [3]), (0, [3])] :=
    (((h.2 (by decide)).1.1 (by decide)).1).trans (by decide)
  refine ⟨h.1.2 (by decide), hev,
    ((h.2 (by decide)).1.1 (by decide)).2, ?_⟩
  rw [(h.2 (by decide)).2 0, hev]

/-- Witness for the single-active-match theorem: a fresh 2-slot buffer
stays idle after reading a non-matching chunk, and the tracked index stays
well-formed. -/
theorem single_active_match_witness :
    ((RingBuffer.init 2 1 [[7]] fun _ => [0]).readFrom
        ⟨[5], false⟩).2.1.matched_buffer_idx = -1 ∨
      (0 ≤ ((RingBuffer.init 2 1 [[7]] fun _ => [0]).readFrom
          ⟨[5], false⟩).2.1.matched_buffer_idx ∧
        ((RingBuffer.init 2 1 [[7]] fun _ => [0]).readFrom
          ⟨[5], false⟩).2.1.matched_buffer_idx < (2 : ℤ)) :=
  (single_active_match (RingBuffer.init 2 1 [[7]] fun _ => [0])
    ⟨[5], false⟩ (by decide) (by decide)).2

/-- Witness for the shape-preservation theorem on a concrete 2×2 buffer. -/
theorem shape_preserved_witness :
    (((RingBuffer.init 2 2 [[9]] fun _ => [0, 0]).readFrom
        ⟨[1, 2, 3], false⟩).2.1.buffer_num = 2 ∧
      ((RingBuffer.init 2 2 [[9]] fun _ => [0, 0]).readFrom
        ⟨[1, 2, 3], false⟩).2.1.buffer.length = 2 ∧
      ∀ c ∈ ((RingBuffer.init 2 2 [[9]] fun _ => [0, 0]).readFrom
        ⟨[1, 2, 3], false⟩).2.1.buffer, c.length = 2) ∧
    ((RingBuffer.init 2 2 [[9]] fun _ => [0, 0]).collectTo 0).1.buffer =
      (RingBuffer.init 2 2 [[9]] fun _ => [0, 0]).buffer := by
  have h := shape_preserved (RingBuffer.init 2 2 [[9]] fun _ => [0, 0])
    ⟨[1, 2, 3], false⟩ 0 (by decide) rfl rfl (by decide)
  exact ⟨⟨h.1.1, h.1.2.2.1, h.1.2.2.2.2⟩, h.2.1⟩

/-- Witness for the empty-pattern theorem: registering the empty pattern
makes every probe match (the empty probe included), and an idle cycle with
data available registers — and here, with `N = 2`, immediately flushes —
a match window. -/
theorem empty_pattern_witness :
    Target.matches [[]] [1, 2] = true ∧
    Target.matches [[]] [] = true ∧
    ((RingBuffer.init 2 1 [[]] fun _ => [0]).readFrom
      ⟨[7], false⟩).2.1.matched_buffer_idx = -1 := by
  have h := empty_pattern_always_matches [[]] [1, 2]
    (RingBuffer.init 2 1 [[]] fun _ => [0]) ⟨[7], false⟩
    (by decide) rfl (by decide) rfl (by decide) (by decide)
  exact ⟨h.1, h.2.1, h.2.2.trans (by decide)⟩

end Bgrep
